import Mathlib

/-!
Verification of the storage-and-execution core of a disk-backed Redis-protocol
key-value server (kvrocks).  The definitions below are shallow embeddings of
the C++ sources:

  * `Request::Tokenize`, `Request::inCommandWhitelist`, `Request::ExecuteCommands`
    (redis protocol tokenizer and command dispatcher),
  * `Storage::Write`, `Storage::CheckDBSizeLimit`, `Storage::CloseDB`,
    `Storage::IncrDBRefs`, `Storage::DecrDBRefs`, `Storage::PurgeOldBackups`,
    `Storage::GetCFHandle`, `Storage::Open` (storage engine wrapper).

Machine integers are modelled as `Nat`/`Int` with explicit `% 2^w` where
overflow can occur (`size_t` lengths in the tokenizer, `uint32_t` arithmetic
in the backup purge).  External collaborators (the RocksDB engine, the command
table, per-command `Parse`/`Execute`) are modelled as oracle parameters,
mirroring the specification's component boundaries.
-/

/-! ## Status (status.h is not part of the analysed sources)

The error-kind enumeration follows the specification's closed set:
`OK, NotFound, WrongType, Corruption, Protocol, Auth, ReadOnly, SpaceLimit,
DBOpenErr, DBBackupErr, DBGetWALErr, NotOK`. -/

inductive StatusCode
  | ok
  | notFound
  | wrongType
  | corruption
  | protocol
  | auth
  | readOnly
  | spaceLimit
  | dbOpenErr
  | dbBackupErr
  | dbGetWALErr
  | notOk
  deriving DecidableEq, Repr

structure Status where
  code : StatusCode
  msg : String
  deriving DecidableEq, Repr

def statusOK : Status := ⟨StatusCode.ok, ""⟩

/-- `Status(Status::NotOK, "Protocol error: " ...)` as returned by every
parse-violation branch of `Request::Tokenize`. -/
def protoErr (m : String) : Status := ⟨StatusCode.notOk, "Protocol error: " ++ m⟩

/-! ## Protocol tokenizer (`Request::Tokenize`, redis_request.cc)

Constants from the source:
  `PROTO_INLINE_MAX_SIZE = 16 * 1024`,
  `PROTO_BULK_MAX_SIZE = 128 * 1024 * 1024`,
  `PROTO_MAX_MULTI_BULKS = 8 * 1024`. -/

def PROTO_INLINE_MAX_SIZE : Nat := 16 * 1024
def PROTO_BULK_MAX_SIZE : Nat := 128 * 1024 * 1024
def PROTO_MAX_MULTI_BULKS : Nat := 8 * 1024

inductive PState
  | arrayLen
  | bulkLen
  | bulkData
  deriving DecidableEq, Repr

/-- Parser state of a `Request`: `state_`, `multi_bulk_len_`, `bulk_len_`
(`size_t`, modelled as `Nat` with 64-bit wrap where it can underflow) and the
pending `tokens_`. -/
structure TokState where
  state : PState
  multiBulkLen : Nat
  bulkLen : Nat
  tokens : List (List Char)
  deriving DecidableEq, Repr

structure TokResult where
  status : Status
  cmds : List (List (List Char))
  residual : List Char
  final : TokState
  deriving DecidableEq, Repr

/-- `evbuffer_readln(input, &len, EVBUFFER_EOL_CRLF_STRICT)`: split the buffer
at the first CRLF; return `none` (consuming nothing) when no complete
CRLF-terminated line is available. -/
def readLine : List Char → Option (List Char × List Char)
  | [] => none
  | [_] => none
  | c :: d :: rest =>
    if c = '\r' ∧ d = '\n' then some ([], rest)
    else (readLine (d :: rest)).map fun p => (c :: p.1, p.2)

def isSpaceChar (c : Char) : Bool :=
  c = ' ' ∨ c = '\t' ∨ c = '\n' ∨ c = '\u000B' ∨ c = '\u000C' ∨ c = '\r'

def isDigitChar (c : Char) : Bool := 48 ≤ c.toNat ∧ c.toNat ≤ 57

def digitsToNat (ds : List Char) : Nat :=
  ds.foldl (fun acc c => acc * 10 + (c.toNat - '0'.toNat)) 0

/-- Modelled from the spec: `std::stoull` (the C++ standard library is not part
of the sources).  Skips leading whitespace, accepts an optional sign, requires
at least one decimal digit (else `std::invalid_argument`, modelled as `none`),
rejects magnitudes above `2^64 - 1` (`std::out_of_range`, modelled as `none`),
and reduces a negated value modulo `2^64` as the unsigned conversion does.
Trailing non-digit characters are ignored, as in the C++ function. -/
def stoull (s : List Char) : Option Nat :=
  let s1 := s.dropWhile isSpaceChar
  let signed : Bool × List Char :=
    match s1 with
    | '-' :: rest => (true, rest)
    | '+' :: rest => (false, rest)
    | _ => (false, s1)
  let ds := signed.2.takeWhile isDigitChar
  if ds = [] then none
  else
    let v := digitsToNat ds
    if v ≥ 2 ^ 64 then none
    else if signed.1 then some ((2 ^ 64 - v) % 2 ^ 64) else some v

/-- Modelled from the spec: `Util::Split(line, " \t", &tokens)` (util.cc is not
part of the sources); "split on whitespace and delivered as a single command":
split on space and tab, dropping empty tokens. -/
def splitTokens (s : List Char) : List (List Char) :=
  (s.splitOnP (fun c => c = ' ' ∨ c = '\t')).filter (fun t => t ≠ [])

/-- `--multi_bulk_len_` on a `size_t`: decrement with 64-bit wrap-around. -/
def decWrap64 (n : Nat) : Nat := (n + (2 ^ 64 - 1)) % 2 ^ 64

/-- Fuel-indexed body of `Request::Tokenize`.  Each loop iteration that does
not return consumes at least two bytes of the buffer, so any fuel larger than
the buffer length is sufficient (`tokenizeF_fuel_congr`); the zero-fuel result
coincides with the "no complete data available" return.

Faithful to the source, branch for branch:
  * `ArrayLen`: read a CRLF line; an unavailable or empty line returns OK
    (the empty line is consumed and dropped, as `len <= 0` returns after
    `evbuffer_readln` already drained it); a `*` line parses a multi-bulk
    count, enforcing `PROTO_MAX_MULTI_BULKS` only when codis is disabled;
    any other line is an inline command, size-capped at
    `PROTO_INLINE_MAX_SIZE`, split and pushed as one command.
  * `BulkLen`: read a line, require `$`, parse the bulk length, enforce
    `PROTO_BULK_MAX_SIZE`.
  * `BulkData`: wait for `bulk_len_ + 2` bytes, take the payload, drop the
    trailing two bytes, decrement the remaining bulk count (with wrap, as the
    `size_t` decrement does), and either finish the command or expect the
    next bulk header. -/
def tokenizeF (codis : Bool) : Nat → TokState → List Char → TokResult
  | 0, st, buf => ⟨statusOK, [], buf, st⟩
  | fuel + 1, st, buf =>
    match st.state with
    | PState.arrayLen =>
      match readLine buf with
      | none => ⟨statusOK, [], buf, st⟩
      | some (l, rest) =>
        match l with
        | [] => ⟨statusOK, [], rest, st⟩
        | c :: cs =>
          if c = '*' then
            match stoull cs with
            | none => ⟨protoErr "expect integer", [], rest, st⟩
            | some n =>
              if codis = false ∧ n > PROTO_MAX_MULTI_BULKS then
                ⟨protoErr "too many bulk strings", [], rest, st⟩
              else
                tokenizeF codis fuel ⟨PState.bulkLen, n, st.bulkLen, st.tokens⟩ rest
          else
            if (c :: cs).length > PROTO_INLINE_MAX_SIZE then
              ⟨protoErr "too big inline request", [], rest, st⟩
            else
              let r := tokenizeF codis fuel ⟨PState.arrayLen, st.multiBulkLen, st.bulkLen, []⟩ rest
              ⟨r.status, splitTokens (c :: cs) :: r.cmds, r.residual, r.final⟩
    | PState.bulkLen =>
      match readLine buf with
      | none => ⟨statusOK, [], buf, st⟩
      | some (l, rest) =>
        match l with
        | [] => ⟨statusOK, [], rest, st⟩
        | c :: cs =>
          if c ≠ '$' then ⟨protoErr "expect \u0027$\u0027", [], rest, st⟩
          else
            match stoull cs with
            | none => ⟨protoErr "expect integer", [], rest, st⟩
            | some n =>
              if n > PROTO_BULK_MAX_SIZE then
                ⟨protoErr "too big bulk string", [], rest, st⟩
              else
                tokenizeF codis fuel ⟨PState.bulkData, st.multiBulkLen, n, st.tokens⟩ rest
    | PState.bulkData =>
      if buf.length < st.bulkLen + 2 then ⟨statusOK, [], buf, st⟩
      else
        let data := buf.take st.bulkLen
        let rest := buf.drop (st.bulkLen + 2)
        let toks := st.tokens ++ [data]
        let m := decWrap64 st.multiBulkLen
        if m = 0 then
          let r := tokenizeF codis fuel ⟨PState.arrayLen, m, st.bulkLen, []⟩ rest
          ⟨r.status, toks :: r.cmds, r.residual, r.final⟩
        else
          tokenizeF codis fuel ⟨PState.bulkLen, m, st.bulkLen, toks⟩ rest

/-- Initial parser state of a fresh `Request`. -/
def tokInit : TokState := ⟨PState.arrayLen, 0, 0, []⟩

/-- `Request::Tokenize`: run the state machine on the whole buffer.  The fuel
`buf.length + 1` always suffices because every non-returning iteration
consumes at least two bytes. -/
def tokenize (codis : Bool) (st : TokState) (buf : List Char) : TokResult :=
  tokenizeF codis (buf.length + 1) st buf

example :
    tokenize false tokInit ("*1\r\n$3\r\nabc\r\n".toList) =
      ⟨statusOK, [[['a', 'b', 'c']]], [], ⟨PState.arrayLen, 0, 3, []⟩⟩ := by
  decide

example :
    (tokenize false tokInit ("*8193\r\n".toList)).status =
      protoErr "too many bulk strings" := by decide

example :
    (tokenize true tokInit ("*8193\r\n".toList)).status = statusOK := by decide

example :
    tokenize false tokInit ("get x\r\n".toList) =
      ⟨statusOK, [[['g', 'e', 't'], ['x']]], [], tokInit⟩ := by decide

/-! ## Structural lemmas about `readLine` -/

theorem readLine_eq_some (buf : List Char) :
    ∀ l r, readLine buf = some (l, r) → buf = l ++ '\r' :: '\n' :: r := by
  induction buf with
  | nil => intro l r h; simp [readLine] at h
  | cons c tail ih =>
    intro l r h
    cases tail with
    | nil => simp [readLine] at h
    | cons d rest =>
      simp only [readLine] at h
      split at h
      case isTrue hcd =>
        injection h with h
        injection h with h1 h2
        subst h1; subst h2
        simp [hcd.1, hcd.2]
      case isFalse hcd =>
        rw [Option.map_eq_some'] at h
        obtain ⟨⟨l0, r0⟩, hrl, hf⟩ := h
        injection hf with h1 h2
        subst h1; subst h2
        have := ih l0 r0 hrl
        rw [this]
        simp

theorem readLine_some_length {buf l r : List Char} (h : readLine buf = some (l, r)) :
    buf.length = l.length + 2 + r.length := by
  have := readLine_eq_some buf l r h
  subst this
  simp
  omega


theorem readLine_append (q : List Char) : ∀ (p l r : List Char),
    readLine p = some (l, r) → readLine (p ++ q) = some (l, r ++ q) := by
  intro p
  induction p with
  | nil => intro l r h; simp [readLine] at h
  | cons c tail ih =>
    intro l r h
    cases tail with
    | nil => simp [readLine] at h
    | cons d rest =>
      simp only [readLine] at h
      show readLine (c :: d :: (rest ++ q)) = some (l, r ++ q)
      rw [readLine]
      split at h
      case isTrue hcd =>
        injection h with h
        injection h with h1 h2
        subst h1; subst h2
        rw [if_pos hcd]
      case isFalse hcd =>
        rw [if_neg hcd]
        rw [Option.map_eq_some'] at h
        obtain ⟨⟨l0, r0⟩, hrl, hf⟩ := h
        injection hf with h1 h2
        subst h1; subst h2
        have h3 : readLine ((d :: rest) ++ q) = some (l0, r0 ++ q) := ih l0 r0 hrl
        rw [show d :: (rest ++ q) = (d :: rest) ++ q from rfl, h3]
        rfl

theorem cons_prefix_of {α : Type} (a : α) {l₁ l₂ : List α} (h : l₁ <+: l₂) :
    a :: l₁ <+: a :: l₂ := by
  obtain ⟨t, rfl⟩ := h
  exact ⟨t, rfl⟩

/-! ## The tokenizer consumes only complete items: its residual is a suffix of
the input buffer. -/

theorem tokenizeF_residual_suffix (codis : Bool) :
    ∀ (fuel : Nat) (st : TokState) (buf : List Char),
      (tokenizeF codis fuel st buf).residual <:+ buf := by
  intro fuel
  induction fuel with
  | zero => intro st buf; exact List.suffix_refl buf
  | succ n ih =>
    intro st buf
    obtain ⟨s, mb, bl, tk⟩ := st
    cases s
    case arrayLen =>
      cases hrl : readLine buf with
      | none =>
        simp only [tokenizeF, hrl]
        exact List.suffix_refl buf
      | some lr =>
        obtain ⟨l, rest⟩ := lr
        have hsuf : rest <:+ buf := by
          refine ⟨l ++ ['\r', '\n'], ?_⟩
          rw [readLine_eq_some buf l rest hrl]
          simp
        cases l with
        | nil =>
          simp only [tokenizeF, hrl]
          exact hsuf
        | cons c cs =>
          by_cases hc : c = '*'
          · simp only [tokenizeF, hrl]
            rw [if_pos hc]
            cases hsto : stoull cs with
            | none =>
              simp only [hsto]
              exact hsuf
            | some nn =>
              simp only [hsto]
              by_cases hlim : codis = false ∧ nn > PROTO_MAX_MULTI_BULKS
              · rw [if_pos hlim]; exact hsuf
              · rw [if_neg hlim]; exact (ih _ rest).trans hsuf
          · simp only [tokenizeF, hrl]
            rw [if_neg hc]
            by_cases hlen : (c :: cs).length > PROTO_INLINE_MAX_SIZE
            · rw [if_pos hlen]; exact hsuf
            · rw [if_neg hlen]; exact (ih _ rest).trans hsuf
    case bulkLen =>
      cases hrl : readLine buf with
      | none =>
        simp only [tokenizeF, hrl]
        exact List.suffix_refl buf
      | some lr =>
        obtain ⟨l, rest⟩ := lr
        have hsuf : rest <:+ buf := by
          refine ⟨l ++ ['\r', '\n'], ?_⟩
          rw [readLine_eq_some buf l rest hrl]
          simp
        cases l with
        | nil =>
          simp only [tokenizeF, hrl]
          exact hsuf
        | cons c cs =>
          by_cases hc : c = '$'
          · simp only [tokenizeF, hrl]
            rw [if_neg (not_not_intro hc)]
            cases hsto : stoull cs with
            | none =>
              simp only [hsto]
              exact hsuf
            | some nn =>
              simp only [hsto]
              by_cases hlim : nn > PROTO_BULK_MAX_SIZE
              · rw [if_pos hlim]; exact hsuf
              · rw [if_neg hlim]; exact (ih _ rest).trans hsuf
          · simp only [tokenizeF, hrl]
            rw [if_pos hc]
            exact hsuf
    case bulkData =>
      by_cases hlt : buf.length < bl + 2
      · simp only [tokenizeF]
        rw [if_pos hlt]
      · have hsuf : buf.drop (bl + 2) <:+ buf := List.drop_suffix _ _
        simp only [tokenizeF]
        rw [if_neg hlt]
        by_cases hm : decWrap64 mb = 0
        · rw [if_pos hm]
          exact (ih _ _).trans hsuf
        · rw [if_neg hm]
          exact (ih _ _).trans hsuf

/-! ## Incrementality: tokenizing a byte-prefix of a well-formed input
succeeds and yields a prefix of the command sequence. -/

theorem tokenizeF_prefix (codis : Bool) :
    ∀ (fuel : Nat) (st : TokState) (P Q : List Char),
      (tokenizeF codis fuel st (P ++ Q)).status = statusOK →
      (tokenizeF codis fuel st P).status = statusOK ∧
      (tokenizeF codis fuel st P).cmds <+: (tokenizeF codis fuel st (P ++ Q)).cmds := by
  intro fuel
  induction fuel with
  | zero =>
    intro st P Q _
    exact ⟨rfl, List.nil_prefix⟩
  | succ n ih =>
    intro st P Q h
    obtain ⟨s, mb, bl, tk⟩ := st
    cases s
    case arrayLen =>
      cases hrl : readLine P with
      | none =>
        refine ⟨?_, ?_⟩
        · simp only [tokenizeF, hrl]
        · simp only [tokenizeF, hrl]
          exact List.nil_prefix
      | some lr =>
        obtain ⟨l, rest⟩ := lr
        have hrlQ := readLine_append Q P l rest hrl
        cases l with
        | nil =>
          refine ⟨?_, ?_⟩
          · simp only [tokenizeF, hrl]
          · simp only [tokenizeF, hrl, hrlQ]
            exact List.prefix_refl _
        | cons c cs =>
          by_cases hc : c = '*'
          · cases hsto : stoull cs with
            | none =>
              exfalso
              have hQ1 : tokenizeF codis (n + 1) ⟨PState.arrayLen, mb, bl, tk⟩ (P ++ Q) =
                  ⟨protoErr "expect integer", [], rest ++ Q, ⟨PState.arrayLen, mb, bl, tk⟩⟩ := by
                simp only [tokenizeF, hrlQ]
                rw [if_pos hc]
                simp only [hsto]
              rw [hQ1] at h
              simp [protoErr, statusOK] at h
            | some nn =>
              by_cases hlim : codis = false ∧ nn > PROTO_MAX_MULTI_BULKS
              · exfalso
                have hQ1 : tokenizeF codis (n + 1) ⟨PState.arrayLen, mb, bl, tk⟩ (P ++ Q) =
                    ⟨protoErr "too many bulk strings", [], rest ++ Q, ⟨PState.arrayLen, mb, bl, tk⟩⟩ := by
                  simp only [tokenizeF, hrlQ]
                  rw [if_pos hc]
                  simp only [hsto]
                  rw [if_pos hlim]
                rw [hQ1] at h
                simp [protoErr, statusOK] at h
              · have hP1 : tokenizeF codis (n + 1) ⟨PState.arrayLen, mb, bl, tk⟩ P =
                    tokenizeF codis n ⟨PState.bulkLen, nn, bl, tk⟩ rest := by
                  simp only [tokenizeF, hrl]
                  rw [if_pos hc]
                  simp only [hsto]
                  rw [if_neg hlim]
                have hQ1 : tokenizeF codis (n + 1) ⟨PState.arrayLen, mb, bl, tk⟩ (P ++ Q) =
                    tokenizeF codis n ⟨PState.bulkLen, nn, bl, tk⟩ (rest ++ Q) := by
                  simp only [tokenizeF, hrlQ]
                  rw [if_pos hc]
                  simp only [hsto]
                  rw [if_neg hlim]
                rw [hQ1] at h
                rw [hP1, hQ1]
                exact ih _ rest Q h
          · by_cases hlen : (c :: cs).length > PROTO_INLINE_MAX_SIZE
            · exfalso
              rw [tokenizeF] at h
              simp only [hrlQ] at h
              rw [if_neg hc, if_pos hlen] at h
              simp [protoErr, statusOK] at h
            · have hP1 : tokenizeF codis (n + 1) ⟨PState.arrayLen, mb, bl, tk⟩ P =
                  ⟨(tokenizeF codis n ⟨PState.arrayLen, mb, bl, []⟩ rest).status,
                    splitTokens (c :: cs) :: (tokenizeF codis n ⟨PState.arrayLen, mb, bl, []⟩ rest).cmds,
                    (tokenizeF codis n ⟨PState.arrayLen, mb, bl, []⟩ rest).residual,
                    (tokenizeF codis n ⟨PState.arrayLen, mb, bl, []⟩ rest).final⟩ := by
                simp only [tokenizeF, hrl]
                rw [if_neg hc, if_neg hlen]
              have hQ1 : tokenizeF codis (n + 1) ⟨PState.arrayLen, mb, bl, tk⟩ (P ++ Q) =
                  ⟨(tokenizeF codis n ⟨PState.arrayLen, mb, bl, []⟩ (rest ++ Q)).status,
                    splitTokens (c :: cs) :: (tokenizeF codis n ⟨PState.arrayLen, mb, bl, []⟩ (rest ++ Q)).cmds,
                    (tokenizeF codis n ⟨PState.arrayLen, mb, bl, []⟩ (rest ++ Q)).residual,
                    (tokenizeF codis n ⟨PState.arrayLen, mb, bl, []⟩ (rest ++ Q)).final⟩ := by
                simp only [tokenizeF, hrlQ]
                rw [if_neg hc, if_neg hlen]
              rw [hQ1] at h
              obtain ⟨h1, h2⟩ := ih ⟨PState.arrayLen, mb, bl, []⟩ rest Q h
              rw [hP1, hQ1]
              exact ⟨h1, cons_prefix_of _ h2⟩
    case bulkLen =>
      cases hrl : readLine P with
      | none =>
        refine ⟨?_, ?_⟩
        · simp only [tokenizeF, hrl]
        · simp only [tokenizeF, hrl]
          exact List.nil_prefix
      | some lr =>
        obtain ⟨l, rest⟩ := lr
        have hrlQ := readLine_append Q P l rest hrl
        cases l with
        | nil =>
          refine ⟨?_, ?_⟩
          · simp only [tokenizeF, hrl]
          · simp only [tokenizeF, hrl, hrlQ]
            exact List.prefix_refl _
        | cons c cs =>
          by_cases hc : c = '$'
          · cases hsto : stoull cs with
            | none =>
              exfalso
              have hQ1 : tokenizeF codis (n + 1) ⟨PState.bulkLen, mb, bl, tk⟩ (P ++ Q) =
                  ⟨protoErr "expect integer", [], rest ++ Q, ⟨PState.bulkLen, mb, bl, tk⟩⟩ := by
                simp only [tokenizeF, hrlQ]
                rw [if_neg (not_not_intro hc)]
                simp only [hsto]
              rw [hQ1] at h
              simp [protoErr, statusOK] at h
            | some nn =>
              by_cases hlim : nn > PROTO_BULK_MAX_SIZE
              · exfalso
                have hQ1 : tokenizeF codis (n + 1) ⟨PState.bulkLen, mb, bl, tk⟩ (P ++ Q) =
                    ⟨protoErr "too big bulk string", [], rest ++ Q, ⟨PState.bulkLen, mb, bl, tk⟩⟩ := by
                  simp only [tokenizeF, hrlQ]
                  rw [if_neg (not_not_intro hc)]
                  simp only [hsto]
                  rw [if_pos hlim]
                rw [hQ1] at h
                simp [protoErr, statusOK] at h
              · have hP1 : tokenizeF codis (n + 1) ⟨PState.bulkLen, mb, bl, tk⟩ P =
                    tokenizeF codis n ⟨PState.bulkData, mb, nn, tk⟩ rest := by
                  simp only [tokenizeF, hrl]
                  rw [if_neg (not_not_intro hc)]
                  simp only [hsto]
                  rw [if_neg hlim]
                have hQ1 : tokenizeF codis (n + 1) ⟨PState.bulkLen, mb, bl, tk⟩ (P ++ Q) =
                    tokenizeF codis n ⟨PState.bulkData, mb, nn, tk⟩ (rest ++ Q) := by
                  simp only [tokenizeF, hrlQ]
                  rw [if_neg (not_not_intro hc)]
                  simp only [hsto]
                  rw [if_neg hlim]
                rw [hQ1] at h
                rw [hP1, hQ1]
                exact ih _ rest Q h
          · exfalso
            rw [tokenizeF] at h
            simp only [hrlQ] at h
            rw [if_pos hc] at h
            simp [protoErr, statusOK] at h
    case bulkData =>
      by_cases hlt : P.length < bl + 2
      · refine ⟨?_, ?_⟩
        · simp only [tokenizeF]
          rw [if_pos hlt]
        · simp only [tokenizeF]
          rw [if_pos hlt]
          exact List.nil_prefix
      · have hltQ : ¬((P ++ Q).length < bl + 2) := by
          simp only [List.length_append]
          omega
        have htake : (P ++ Q).take bl = P.take bl := by
          rw [List.take_append_eq_append_take]
          rw [Nat.sub_eq_zero_of_le (by omega), List.take_zero, List.append_nil]
        have hdrop : (P ++ Q).drop (bl + 2) = P.drop (bl + 2) ++ Q := by
          rw [List.drop_append_eq_append_drop]
          rw [Nat.sub_eq_zero_of_le (by omega), List.drop_zero]
        by_cases hm : decWrap64 mb = 0
        · have hP1 : tokenizeF codis (n + 1) ⟨PState.bulkData, mb, bl, tk⟩ P =
              ⟨(tokenizeF codis n ⟨PState.arrayLen, decWrap64 mb, bl, []⟩ (P.drop (bl + 2))).status,
                (tk ++ [P.take bl]) ::
                  (tokenizeF codis n ⟨PState.arrayLen, decWrap64 mb, bl, []⟩ (P.drop (bl + 2))).cmds,
                (tokenizeF codis n ⟨PState.arrayLen, decWrap64 mb, bl, []⟩ (P.drop (bl + 2))).residual,
                (tokenizeF codis n ⟨PState.arrayLen, decWrap64 mb, bl, []⟩ (P.drop (bl + 2))).final⟩ := by
            simp only [tokenizeF]
            rw [if_neg hlt, if_pos hm]
          have hQ1 : tokenizeF codis (n + 1) ⟨PState.bulkData, mb, bl, tk⟩ (P ++ Q) =
              ⟨(tokenizeF codis n ⟨PState.arrayLen, decWrap64 mb, bl, []⟩ (P.drop (bl + 2) ++ Q)).status,
                (tk ++ [P.take bl]) ::
                  (tokenizeF codis n ⟨PState.arrayLen, decWrap64 mb, bl, []⟩ (P.drop (bl + 2) ++ Q)).cmds,
                (tokenizeF codis n ⟨PState.arrayLen, decWrap64 mb, bl, []⟩ (P.drop (bl + 2) ++ Q)).residual,
                (tokenizeF codis n ⟨PState.arrayLen, decWrap64 mb, bl, []⟩ (P.drop (bl + 2) ++ Q)).final⟩ := by
            simp only [tokenizeF]
            rw [if_neg hltQ, if_pos hm, htake, hdrop]
          rw [hQ1] at h
          obtain ⟨h1, h2⟩ := ih ⟨PState.arrayLen, decWrap64 mb, bl, []⟩ (P.drop (bl + 2)) Q h
          rw [hP1, hQ1]
          exact ⟨h1, cons_prefix_of _ h2⟩
        · have hP1 : tokenizeF codis (n + 1) ⟨PState.bulkData, mb, bl, tk⟩ P =
              tokenizeF codis n ⟨PState.bulkLen, decWrap64 mb, bl, tk ++ [P.take bl]⟩ (P.drop (bl + 2)) := by
            simp only [tokenizeF]
            rw [if_neg hlt, if_neg hm]
          have hQ1 : tokenizeF codis (n + 1) ⟨PState.bulkData, mb, bl, tk⟩ (P ++ Q) =
              tokenizeF codis n ⟨PState.bulkLen, decWrap64 mb, bl, tk ++ [P.take bl]⟩ (P.drop (bl + 2) ++ Q) := by
            simp only [tokenizeF]
            rw [if_neg hltQ, if_neg hm, htake, hdrop]
          rw [hQ1] at h
          rw [hP1, hQ1]
          exact ih _ (P.drop (bl + 2)) Q h

/-! ## Fuel irrelevance: any fuel above the buffer length gives the same
result, since every non-returning iteration consumes at least two bytes. -/

theorem tokenizeF_fuel_congr (codis : Bool) :
    ∀ (f₁ : Nat), ∀ (f₂ : Nat) (st : TokState) (buf : List Char),
      buf.length < f₁ → buf.length < f₂ →
      tokenizeF codis f₁ st buf = tokenizeF codis f₂ st buf := by
  intro f₁
  induction f₁ with
  | zero => intro f₂ st buf h1 _; omega
  | succ n ih =>
    intro f₂ st buf h1 h2
    cases f₂ with
    | zero => omega
    | succ m =>
      obtain ⟨s, mb, bl, tk⟩ := st
      cases s
      case arrayLen =>
        cases hrl : readLine buf with
        | none => simp only [tokenizeF, hrl]
        | some lr =>
          obtain ⟨l, rest⟩ := lr
          have hlen := readLine_some_length hrl
          cases l with
          | nil => simp only [tokenizeF, hrl]
          | cons c cs =>
            by_cases hc : c = '*'
            · cases hsto : stoull cs with
              | none =>
                simp only [tokenizeF, hrl]
                rw [if_pos hc, if_pos hc]
                simp only [hsto]
              | some nn =>
                by_cases hlim : codis = false ∧ nn > PROTO_MAX_MULTI_BULKS
                · simp only [tokenizeF, hrl]
                  rw [if_pos hc, if_pos hc]
                  simp only [hsto]
                  rw [if_pos hlim, if_pos hlim]
                · have e1 : tokenizeF codis (n + 1) ⟨PState.arrayLen, mb, bl, tk⟩ buf =
                      tokenizeF codis n ⟨PState.bulkLen, nn, bl, tk⟩ rest := by
                    simp only [tokenizeF, hrl]
                    rw [if_pos hc]
                    simp only [hsto]
                    rw [if_neg hlim]
                  have e2 : tokenizeF codis (m + 1) ⟨PState.arrayLen, mb, bl, tk⟩ buf =
                      tokenizeF codis m ⟨PState.bulkLen, nn, bl, tk⟩ rest := by
                    simp only [tokenizeF, hrl]
                    rw [if_pos hc]
                    simp only [hsto]
                    rw [if_neg hlim]
                  rw [e1, e2]
                  exact ih m _ rest (by simp at hlen; omega) (by simp at hlen; omega)
            · by_cases hlt : (c :: cs).length > PROTO_INLINE_MAX_SIZE
              · simp only [tokenizeF, hrl]
                rw [if_neg hc, if_pos hlt, if_neg hc, if_pos hlt]
              · have e1 : tokenizeF codis (n + 1) ⟨PState.arrayLen, mb, bl, tk⟩ buf =
                    ⟨(tokenizeF codis n ⟨PState.arrayLen, mb, bl, []⟩ rest).status,
                      splitTokens (c :: cs) :: (tokenizeF codis n ⟨PState.arrayLen, mb, bl, []⟩ rest).cmds,
                      (tokenizeF codis n ⟨PState.arrayLen, mb, bl, []⟩ rest).residual,
                      (tokenizeF codis n ⟨PState.arrayLen, mb, bl, []⟩ rest).final⟩ := by
                  simp only [tokenizeF, hrl]
                  rw [if_neg hc, if_neg hlt]
                have e2 : tokenizeF codis (m + 1) ⟨PState.arrayLen, mb, bl, tk⟩ buf =
                    ⟨(tokenizeF codis m ⟨PState.arrayLen, mb, bl, []⟩ rest).status,
                      splitTokens (c :: cs) :: (tokenizeF codis m ⟨PState.arrayLen, mb, bl, []⟩ rest).cmds,
                      (tokenizeF codis m ⟨PState.arrayLen, mb, bl, []⟩ rest).residual,
                      (tokenizeF codis m ⟨PState.arrayLen, mb, bl, []⟩ rest).final⟩ := by
                  simp only [tokenizeF, hrl]
                  rw [if_neg hc, if_neg hlt]
                rw [e1, e2]
                rw [ih m ⟨PState.arrayLen, mb, bl, []⟩ rest (by simp at hlen; omega) (by simp at hlen; omega)]
      case bulkLen =>
        cases hrl : readLine buf with
        | none => simp only [tokenizeF, hrl]
        | some lr =>
          obtain ⟨l, rest⟩ := lr
          have hlen := readLine_some_length hrl
          cases l with
          | nil => simp only [tokenizeF, hrl]
          | cons c cs =>
            by_cases hc : c = '$'
            · cases hsto : stoull cs with
              | none =>
                simp only [tokenizeF, hrl]
                rw [if_neg (not_not_intro hc), if_neg (not_not_intro hc)]
                simp only [hsto]
              | some nn =>
                by_cases hlim : nn > PROTO_BULK_MAX_SIZE
                · simp only [tokenizeF, hrl]
                  rw [if_neg (not_not_intro hc), if_neg (not_not_intro hc)]
                  simp only [hsto]
                  rw [if_pos hlim, if_pos hlim]
                · have e1 : tokenizeF codis (n + 1) ⟨PState.bulkLen, mb, bl, tk⟩ buf =
                      tokenizeF codis n ⟨PState.bulkData, mb, nn, tk⟩ rest := by
                    simp only [tokenizeF, hrl]
                    rw [if_neg (not_not_intro hc)]
                    simp only [hsto]
                    rw [if_neg hlim]
                  have e2 : tokenizeF codis (m + 1) ⟨PState.bulkLen, mb, bl, tk⟩ buf =
                      tokenizeF codis m ⟨PState.bulkData, mb, nn, tk⟩ rest := by
                    simp only [tokenizeF, hrl]
                    rw [if_neg (not_not_intro hc)]
                    simp only [hsto]
                    rw [if_neg hlim]
                  rw [e1, e2]
                  exact ih m _ rest (by simp at hlen; omega) (by simp at hlen; omega)
            · simp only [tokenizeF, hrl]
              rw [if_pos hc, if_pos hc]
      case bulkData =>
        by_cases hlt : buf.length < bl + 2
        · simp only [tokenizeF]
          rw [if_pos hlt, if_pos hlt]
        · have hdlen : (buf.drop (bl + 2)).length < n ∧ (buf.drop (bl + 2)).length < m := by
            simp only [List.length_drop]
            omega
          by_cases hm : decWrap64 mb = 0
          · have e1 : tokenizeF codis (n + 1) ⟨PState.bulkData, mb, bl, tk⟩ buf =
                ⟨(tokenizeF codis n ⟨PState.arrayLen, decWrap64 mb, bl, []⟩ (buf.drop (bl + 2))).status,
                  (tk ++ [buf.take bl]) ::
                    (tokenizeF codis n ⟨PState.arrayLen, decWrap64 mb, bl, []⟩ (buf.drop (bl + 2))).cmds,
                  (tokenizeF codis n ⟨PState.arrayLen, decWrap64 mb, bl, []⟩ (buf.drop (bl + 2))).residual,
                  (tokenizeF codis n ⟨PState.arrayLen, decWrap64 mb, bl, []⟩ (buf.drop (bl + 2))).final⟩ := by
              simp only [tokenizeF]
              rw [if_neg hlt, if_pos hm]
            have e2 : tokenizeF codis (m + 1) ⟨PState.bulkData, mb, bl, tk⟩ buf =
                ⟨(tokenizeF codis m ⟨PState.arrayLen, decWrap64 mb, bl, []⟩ (buf.drop (bl + 2))).status,
                  (tk ++ [buf.take bl]) ::
                    (tokenizeF codis m ⟨PState.arrayLen, decWrap64 mb, bl, []⟩ (buf.drop (bl + 2))).cmds,
                  (tokenizeF codis m ⟨PState.arrayLen, decWrap64 mb, bl, []⟩ (buf.drop (bl + 2))).residual,
                  (tokenizeF codis m ⟨PState.arrayLen, decWrap64 mb, bl, []⟩ (buf.drop (bl + 2))).final⟩ := by
              simp only [tokenizeF]
              rw [if_neg hlt, if_pos hm]
            rw [e1, e2]
            rw [ih m ⟨PState.arrayLen, decWrap64 mb, bl, []⟩ (buf.drop (bl + 2)) hdlen.1 hdlen.2]
          · have e1 : tokenizeF codis (n + 1) ⟨PState.bulkData, mb, bl, tk⟩ buf =
                tokenizeF codis n ⟨PState.bulkLen, decWrap64 mb, bl, tk ++ [buf.take bl]⟩ (buf.drop (bl + 2)) := by
              simp only [tokenizeF]
              rw [if_neg hlt, if_neg hm]
            have e2 : tokenizeF codis (m + 1) ⟨PState.bulkData, mb, bl, tk⟩ buf =
                tokenizeF codis m ⟨PState.bulkLen, decWrap64 mb, bl, tk ++ [buf.take bl]⟩ (buf.drop (bl + 2)) := by
              simp only [tokenizeF]
              rw [if_neg hlt, if_neg hm]
            rw [e1, e2]
            exact ih m _ (buf.drop (bl + 2)) hdlen.1 hdlen.2

/-! ## Every tokenizer return is either OK or a NotOK status carrying a
"Protocol error: " message. -/

theorem tokenizeF_status_shape (codis : Bool) :
    ∀ (fuel : Nat) (st : TokState) (buf : List Char),
      (tokenizeF codis fuel st buf).status = statusOK ∨
      ∃ m, (tokenizeF codis fuel st buf).status = protoErr m := by
  intro fuel
  induction fuel with
  | zero => intro st buf; exact Or.inl rfl
  | succ n ih =>
    intro st buf
    obtain ⟨s, mb, bl, tk⟩ := st
    cases s
    case arrayLen =>
      cases hrl : readLine buf with
      | none =>
        simp only [tokenizeF, hrl]
        exact Or.inl (by trivial)
      | some lr =>
        obtain ⟨l, rest⟩ := lr
        cases l with
        | nil =>
          simp only [tokenizeF, hrl]
          exact Or.inl (by trivial)
        | cons c cs =>
          by_cases hc : c = '*'
          · simp only [tokenizeF, hrl]
            rw [if_pos hc]
            cases hsto : stoull cs with
            | none =>
              simp only [hsto]
              exact Or.inr ⟨"expect integer", rfl⟩
            | some nn =>
              simp only [hsto]
              by_cases hlim : codis = false ∧ nn > PROTO_MAX_MULTI_BULKS
              · rw [if_pos hlim]
                exact Or.inr ⟨"too many bulk strings", rfl⟩
              · rw [if_neg hlim]
                exact ih _ rest
          · simp only [tokenizeF, hrl]
            rw [if_neg hc]
            by_cases hlen : (c :: cs).length > PROTO_INLINE_MAX_SIZE
            · rw [if_pos hlen]
              exact Or.inr ⟨"too big inline request", rfl⟩
            · rw [if_neg hlen]
              exact ih _ rest
    case bulkLen =>
      cases hrl : readLine buf with
      | none =>
        simp only [tokenizeF, hrl]
        exact Or.inl (by trivial)
      | some lr =>
        obtain ⟨l, rest⟩ := lr
        cases l with
        | nil =>
          simp only [tokenizeF, hrl]
          exact Or.inl (by trivial)
        | cons c cs =>
          by_cases hc : c = '$'
          · simp only [tokenizeF, hrl]
            rw [if_neg (not_not_intro hc)]
            cases hsto : stoull cs with
            | none =>
              simp only [hsto]
              exact Or.inr ⟨"expect integer", rfl⟩
            | some nn =>
              simp only [hsto]
              by_cases hlim : nn > PROTO_BULK_MAX_SIZE
              · rw [if_pos hlim]
                exact Or.inr ⟨"too big bulk string", rfl⟩
              · rw [if_neg hlim]
                exact ih _ rest
          · simp only [tokenizeF, hrl]
            rw [if_pos hc]
            exact Or.inr ⟨"expect '$'", rfl⟩
    case bulkData =>
      by_cases hlt : buf.length < bl + 2
      · simp only [tokenizeF]
        rw [if_pos hlt]
        exact Or.inl rfl
      · simp only [tokenizeF]
        rw [if_neg hlt]
        by_cases hm : decWrap64 mb = 0
        · rw [if_pos hm]
          exact ih _ _
        · rw [if_neg hm]
          exact ih _ _

/-- C5: for every well-formed protocol input `I = P ++ Q` (well-formed means
tokenizing all of it does not report a protocol error) and every byte-prefix
`P`, tokenizing `P` returns success, its command sequence is a prefix of the
command sequence of the full input, and the unconsumed bytes of any incomplete
line or bulk remain in the buffer (the residual is a suffix of `P`), together
with the saved parser state in the result. -/
theorem c5_tokenize_incremental (codis : Bool) (P Q : List Char)
    (hok : (tokenize codis tokInit (P ++ Q)).status = statusOK) :
    (tokenize codis tokInit P).status = statusOK ∧
    (tokenize codis tokInit P).cmds <+: (tokenize codis tokInit (P ++ Q)).cmds ∧
    (tokenize codis tokInit P).residual <:+ P := by
  have hfc : tokenize codis tokInit P = tokenizeF codis ((P ++ Q).length + 1) tokInit P := by
    unfold tokenize
    refine tokenizeF_fuel_congr codis (P.length + 1) ((P ++ Q).length + 1) tokInit P (by omega) ?_
    simp only [List.length_append]
    omega
  have hmain := tokenizeF_prefix codis ((P ++ Q).length + 1) tokInit P Q hok
  refine ⟨?_, ?_, ?_⟩
  · rw [hfc]
    exact hmain.1
  · rw [hfc]
    exact hmain.2
  · exact tokenizeF_residual_suffix codis (P.length + 1) tokInit P

theorem c5_witness :
    (tokenize false tokInit ("*1\r\n$3\r\nab".toList)).status = statusOK ∧
    (tokenize false tokInit ("*1\r\n$3\r\nab".toList)).cmds <+:
      (tokenize false tokInit ("*1\r\n$3\r\nab".toList ++ "c\r\nget x\r\n".toList)).cmds ∧
    (tokenize false tokInit ("*1\r\n$3\r\nab".toList)).residual <:+ "*1\r\n$3\r\nab".toList :=
  c5_tokenize_incremental false ("*1\r\n$3\r\nab".toList) ("c\r\nget x\r\n".toList) (by decide)

/-- C3: a multi-bulk header line `*N` read in the `ArrayLen` state is rejected
with a "too many bulk strings" protocol error exactly when codis mode is off
and `N > 8192`; `N ≤ 8192` is accepted (the parser proceeds to `BulkLen` with
`multi_bulk_len_ = N`), and with codis mode on any parsed `N` is accepted. -/
theorem c3_multibulk_limit (codis : Bool) (st : TokState) (buf ds rest : List Char) (n : Nat)
    (hst : st.state = PState.arrayLen)
    (hline : readLine buf = some ('*' :: ds, rest))
    (hparse : stoull ds = some n) :
    (codis = false → n > PROTO_MAX_MULTI_BULKS →
       tokenize codis st buf = ⟨protoErr "too many bulk strings", [], rest, st⟩) ∧
    (codis = false → n ≤ PROTO_MAX_MULTI_BULKS →
       tokenize codis st buf = tokenize codis ⟨PState.bulkLen, n, st.bulkLen, st.tokens⟩ rest) ∧
    (codis = true →
       tokenize codis st buf = tokenize codis ⟨PState.bulkLen, n, st.bulkLen, st.tokens⟩ rest) := by
  obtain ⟨s, mb, bl, tk⟩ := st
  simp only at hst
  subst hst
  have hlen := readLine_some_length hline
  simp only [List.length_cons] at hlen
  have hstep : ∀ hcond : ¬(codis = false ∧ n > PROTO_MAX_MULTI_BULKS),
      tokenize codis ⟨PState.arrayLen, mb, bl, tk⟩ buf =
        tokenize codis ⟨PState.bulkLen, n, bl, tk⟩ rest := by
    intro hcond
    unfold tokenize
    have e1 : tokenizeF codis (buf.length + 1) ⟨PState.arrayLen, mb, bl, tk⟩ buf =
        tokenizeF codis buf.length ⟨PState.bulkLen, n, bl, tk⟩ rest := by
      simp only [tokenizeF, hline]
      rw [if_pos trivial]
      simp only [hparse]
      rw [if_neg hcond]
    rw [e1]
    exact tokenizeF_fuel_congr codis buf.length (rest.length + 1) _ rest (by omega) (by omega)
  refine ⟨?_, ?_, ?_⟩
  · intro hcod hgt
    unfold tokenize
    simp only [tokenizeF, hline]
    rw [if_pos trivial]
    simp only [hparse]
    rw [if_pos ⟨hcod, hgt⟩]
  · intro hcod hle
    exact hstep (fun hcontra => absurd hcontra.2 (not_lt.mpr hle))
  · intro hcod
    exact hstep (by simp [hcod])

theorem c3_witness :
    tokenize false tokInit ("*8193\r\n".toList) =
      ⟨protoErr "too many bulk strings", [], [], tokInit⟩ ∧
    tokenize false tokInit ("*8192\r\n".toList) =
      tokenize false ⟨PState.bulkLen, 8192, 0, []⟩ [] ∧
    tokenize true tokInit ("*8193\r\n".toList) =
      tokenize true ⟨PState.bulkLen, 8193, 0, []⟩ [] :=
  ⟨(c3_multibulk_limit false tokInit ("*8193\r\n".toList) ("8193".toList) [] 8193
      rfl (by decide) (by decide)).1 rfl (by decide),
   (c3_multibulk_limit false tokInit ("*8192\r\n".toList) ("8192".toList) [] 8192
      rfl (by decide) (by decide)).2.1 rfl (by decide),
   (c3_multibulk_limit true tokInit ("*8193\r\n".toList) ("8193".toList) [] 8193
      rfl (by decide) (by decide)).2.2 rfl⟩

/-- C4: a line read in the `ArrayLen` state that does not start with `*` is an
inline command: if its length is at most 16 KiB it is split on space/tab and
appended to the command list as a single command with the parser back in the
`ArrayLen` state for the rest of the buffer; if its length exceeds 16 KiB it
is rejected with a "too big inline request" protocol error. -/
theorem c4_inline_command (codis : Bool) (st : TokState) (buf rest : List Char)
    (c : Char) (cs : List Char)
    (hst : st.state = PState.arrayLen)
    (hline : readLine buf = some (c :: cs, rest))
    (hstar : c ≠ '*') :
    ((c :: cs).length ≤ PROTO_INLINE_MAX_SIZE →
       tokenize codis st buf =
         ⟨(tokenize codis ⟨PState.arrayLen, st.multiBulkLen, st.bulkLen, []⟩ rest).status,
           splitTokens (c :: cs) ::
             (tokenize codis ⟨PState.arrayLen, st.multiBulkLen, st.bulkLen, []⟩ rest).cmds,
           (tokenize codis ⟨PState.arrayLen, st.multiBulkLen, st.bulkLen, []⟩ rest).residual,
           (tokenize codis ⟨PState.arrayLen, st.multiBulkLen, st.bulkLen, []⟩ rest).final⟩) ∧
    ((c :: cs).length > PROTO_INLINE_MAX_SIZE →
       tokenize codis st buf = ⟨protoErr "too big inline request", [], rest, st⟩) := by
  obtain ⟨s, mb, bl, tk⟩ := st
  simp only at hst
  subst hst
  have hlen := readLine_some_length hline
  simp only [List.length_cons] at hlen
  refine ⟨?_, ?_⟩
  · intro hle
    unfold tokenize
    have e1 : tokenizeF codis (buf.length + 1) ⟨PState.arrayLen, mb, bl, tk⟩ buf =
        ⟨(tokenizeF codis buf.length ⟨PState.arrayLen, mb, bl, []⟩ rest).status,
          splitTokens (c :: cs) :: (tokenizeF codis buf.length ⟨PState.arrayLen, mb, bl, []⟩ rest).cmds,
          (tokenizeF codis buf.length ⟨PState.arrayLen, mb, bl, []⟩ rest).residual,
          (tokenizeF codis buf.length ⟨PState.arrayLen, mb, bl, []⟩ rest).final⟩ := by
      simp only [tokenizeF, hline]
      rw [if_neg hstar, if_neg (not_lt.mpr hle)]
    rw [e1]
    rw [tokenizeF_fuel_congr codis buf.length (rest.length + 1) ⟨PState.arrayLen, mb, bl, []⟩ rest
      (by omega) (by omega)]
  · intro hgt
    unfold tokenize
    simp only [tokenizeF, hline]
    rw [if_neg hstar, if_pos hgt]

theorem c4_witness :
    tokenize false tokInit ("set foo bar\r\n".toList) =
      ⟨statusOK, [[['s', 'e', 't'], ['f', 'o', 'o'], ['b', 'a', 'r']]], [], tokInit⟩ := by
  have h := (c4_inline_command false tokInit ("set foo bar\r\n".toList) []
    's' ("et foo bar".toList) rfl (by decide) (by decide)).1 (by decide)
  rw [h]
  decide

/-- C6 (amended): every parse violation detected by the tokenizer returns a
status whose error kind is `NotOK` (not `Protocol`: the source has no separate
`Protocol` status code in use here), carrying a human-readable message that
starts with "Protocol error: ". -/
theorem c6_protocol_errors (codis : Bool) (st : TokState) (buf : List Char)
    (herr : (tokenize codis st buf).status ≠ statusOK) :
    (tokenize codis st buf).status.code = StatusCode.notOk ∧
    ∃ m, (tokenize codis st buf).status.msg = "Protocol error: " ++ m := by
  rcases tokenizeF_status_shape codis (buf.length + 1) st buf with h | ⟨m, h⟩
  · exact absurd h herr
  · unfold tokenize
    rw [h]
    exact ⟨rfl, m, rfl⟩

theorem c6_witness :
    (tokenize false tokInit ("*x\r\n".toList)).status.code = StatusCode.notOk ∧
    ∃ m, (tokenize false tokInit ("*x\r\n".toList)).status.msg = "Protocol error: " ++ m :=
  c6_protocol_errors false tokInit ("*x\r\n".toList) (by decide)

/-- C6 counterexample: the claim says parse violations carry the `Protocol`
error kind; the violation `*x` (non-integer array length) actually returns
the kind `NotOK` ("Protocol" appears only in the message text). -/
theorem c6_counterexample :
    (tokenize false tokInit ("*x\r\n".toList)).status = protoErr "expect integer" ∧
    (tokenize false tokInit ("*x\r\n".toList)).status.code = StatusCode.notOk ∧
    (tokenize false tokInit ("*x\r\n".toList)).status.code ≠ StatusCode.protocol := by
  refine ⟨by decide, by decide, by decide⟩

/-! ## Command dispatcher (`Request::ExecuteCommands`, redis_request.cc)

Command objects, the command table (`LookupCommand`), per-command `Parse` and
`Execute`, and the server counters are external collaborators; they are
modelled as oracle fields of `Server`.  The dispatcher logic itself is
translated branch for branch. -/

/-- Modelled from the spec: `Util::ToLower` (util.cc is not part of the
sources), ASCII case folding. -/
def charToLower (c : Char) : Char :=
  if 65 ≤ c.toNat ∧ c.toNat ≤ 90 then Char.ofNat (c.toNat + 32) else c

def strToLower (s : String) : String := String.mk (s.toList.map charToLower)

/-- Modelled from the spec: `kDefaultNamespace` (defined outside the analysed
sources); the distinguished namespace granted to authenticated/admin
connections. -/
def kDefaultNamespace : String := "__namespace"

/-- A command descriptor: `Name()`, `GetArity()`, `IsWrite()`. -/
structure CommandDesc where
  name : String
  arity : Int
  isWrite : Bool
  deriving DecidableEq, Repr

/-- Oracle view of the server: loading/slave state, the command table
(`LookupCommand(name, &cmd, is_repl)`), per-command `Parse` and `Execute`
results. -/
structure Server where
  isLoading : Bool
  isSlave : Bool
  lookup : String → Bool → Option CommandDesc
  parse : CommandDesc → List String → Status
  exec : CommandDesc → List String → Status × String

structure DispatchCfg where
  requirepass : String
  slaveReadonly : Bool
  deriving DecidableEq, Repr

/-- Connection state touched by the dispatcher. -/
structure Conn where
  ns : String
  isAdmin : Bool
  isRepl : Bool
  closeAfterReply : Bool
  lastCmd : String
  deriving DecidableEq, Repr

/-- Observable actions of one dispatch step: `conn->Reply(Redis::Error(m))`,
`conn->Reply(m)`, and invoking the command's `Execute`. -/
inductive Effect
  | replyError (msg : String)
  | reply (msg : String)
  | execute (cmdName : String) (args : List String)
  deriving DecidableEq, Repr

structure StepResult where
  conn : Conn
  effects : List Effect
  executed : Bool
  brk : Bool
  deriving DecidableEq, Repr

/-- `Request::inCommandWhitelist`: the loading-state whitelist is `{"auth"}`. -/
def inCommandWhitelist (command : String) : Bool :=
  ["auth"].any (fun allow => allow = command)

/-- The stages of `ExecuteCommands` after the arity check: per-command
`Parse`, the slave read-only gate, and `Execute` with reply handling. -/
def afterArity (cfg : DispatchCfg) (svr : Server) (conn : Conn) (cmd : CommandDesc)
    (cmdTokens : List String) : StepResult :=
  let ps := svr.parse cmd cmdTokens
  if ps.code ≠ StatusCode.ok then
    ⟨conn, [Effect.replyError ps.msg], false, false⟩
  else if cfg.slaveReadonly = true ∧ svr.isSlave = true ∧ cmd.isWrite = true then
    ⟨conn, [Effect.replyError "READONLY You can't write against a read only slave."], false, false⟩
  else
    let conn := { conn with lastCmd := cmd.name }
    let r := svr.exec cmd cmdTokens
    if r.1.code ≠ StatusCode.ok then
      ⟨conn, [Effect.execute cmd.name cmdTokens, Effect.replyError ("ERR " ++ r.1.msg)], true, false⟩
    else if r.2 ≠ "" then
      ⟨conn, [Effect.execute cmd.name cmdTokens, Effect.reply r.2], true, false⟩
    else
      ⟨conn, [Effect.execute cmd.name cmdTokens], true, false⟩


/-- Command lookup, loading-state gate and arity check of the
`ExecuteCommands` loop body, run on the connection after the namespace gate. -/
def dispatchCmd (cfg : DispatchCfg) (svr : Server) (conn : Conn)
    (cmdTokens : List String) : StepResult :=
  match svr.lookup cmdTokens.headI conn.isRepl with
  | none => ⟨conn, [Effect.replyError "ERR unknown command"], false, false⟩
  | some cmd =>
    if svr.isLoading = true ∧ inCommandWhitelist cmd.name = false then
      ⟨conn, [Effect.replyError "ERR restoring the db from backup"], false, true⟩
    else if (cmd.arity > 0 ∧ (cmdTokens.length : Int) ≠ cmd.arity) ∨
        (cmd.arity < 0 ∧ (cmdTokens.length : Int) < -cmd.arity) then
      ⟨conn, [Effect.replyError "ERR wrong number of arguments"], false, false⟩
    else
      afterArity cfg svr conn cmd cmdTokens

/-- One iteration of the `ExecuteCommands` loop body: the authentication gate
(on a connection with no namespace: NOAUTH unless the command is `auth` or no
`requirepass` is configured, otherwise admin mode with the default namespace),
then `dispatchCmd`. -/
def processCommand (cfg : DispatchCfg) (svr : Server) (conn0 : Conn)
    (cmdTokens : List String) : StepResult :=
  if conn0.ns = "" ∧ cfg.requirepass ≠ "" ∧ strToLower cmdTokens.headI ≠ "auth" then
    ⟨conn0, [Effect.replyError "NOAUTH Authentication required."], false, false⟩
  else if conn0.ns = "" then
    dispatchCmd cfg svr { conn0 with isAdmin := true, ns := kDefaultNamespace } cmdTokens
  else
    dispatchCmd cfg svr conn0 cmdTokens

/-- `Request::ExecuteCommands`: process the queued commands in order, stopping
at the close-after-reply flag or a loop break (loading state). -/
def executeCommands (cfg : DispatchCfg) (svr : Server) : Conn → List (List String) → Conn × List Effect
  | conn, [] => (conn, [])
  | conn, tokens :: rest =>
    if conn.closeAfterReply = true then (conn, [])
    else
      let r := processCommand cfg svr conn tokens
      if r.brk = true then (r.conn, r.effects)
      else
        let next := executeCommands cfg svr r.conn rest
        (next.1, r.effects ++ next.2)

/-- The dispatch stages after the namespace gate never change the namespace or
the admin flag of the connection. -/
theorem dispatchCmd_preserves (cfg : DispatchCfg) (svr : Server) (conn : Conn)
    (tokens : List String) :
    (dispatchCmd cfg svr conn tokens).conn.ns = conn.ns ∧
    (dispatchCmd cfg svr conn tokens).conn.isAdmin = conn.isAdmin := by
  unfold dispatchCmd
  cases svr.lookup tokens.headI conn.isRepl with
  | none => exact ⟨rfl, rfl⟩
  | some cmd =>
    unfold afterArity
    dsimp only
    repeat' split
    all_goals exact ⟨rfl, rfl⟩

/-- C1: on a connection with an empty namespace, if `requirepass` is set and
the first token is not "auth" (case-insensitively), the dispatcher replies
"NOAUTH Authentication required.", skips the command without looking it up or
executing it, leaves the connection unchanged, and continues with the next
queued command; otherwise it makes the connection an admin on the default
namespace before dispatching. -/
theorem c1_auth_gate (cfg : DispatchCfg) (svr : Server) (conn : Conn)
    (tokens : List String) (cmds : List (List String))
    (hns : conn.ns = "") (hcl : conn.closeAfterReply = false) :
    ((cfg.requirepass ≠ "" ∧ strToLower tokens.headI ≠ "auth") →
       processCommand cfg svr conn tokens =
         ⟨conn, [Effect.replyError "NOAUTH Authentication required."], false, false⟩ ∧
       executeCommands cfg svr conn (tokens :: cmds) =
         ((executeCommands cfg svr conn cmds).1,
           Effect.replyError "NOAUTH Authentication required." :: (executeCommands cfg svr conn cmds).2)) ∧
    (¬(cfg.requirepass ≠ "" ∧ strToLower tokens.headI ≠ "auth") →
       processCommand cfg svr conn tokens =
         dispatchCmd cfg svr { conn with isAdmin := true, ns := kDefaultNamespace } tokens ∧
       (processCommand cfg svr conn tokens).conn.isAdmin = true ∧
       (processCommand cfg svr conn tokens).conn.ns = kDefaultNamespace) := by
  constructor
  · intro hgate
    have hproc : processCommand cfg svr conn tokens =
        ⟨conn, [Effect.replyError "NOAUTH Authentication required."], false, false⟩ := by
      unfold processCommand
      rw [if_pos ⟨hns, hgate.1, hgate.2⟩]
    refine ⟨hproc, ?_⟩
    show (if conn.closeAfterReply = true then (conn, [])
      else
        let r := processCommand cfg svr conn tokens
        if r.brk = true then (r.conn, r.effects)
        else
          let next := executeCommands cfg svr r.conn cmds
          (next.1, r.effects ++ next.2)) = _
    rw [hcl]
    simp [hproc]
  · intro hgate
    have hpc : processCommand cfg svr conn tokens =
        dispatchCmd cfg svr { conn with isAdmin := true, ns := kDefaultNamespace } tokens := by
      unfold processCommand
      rw [if_neg (fun hcontra => hgate ⟨hcontra.2.1, hcontra.2.2⟩), if_pos hns]
    have hp := dispatchCmd_preserves cfg svr { conn with isAdmin := true, ns := kDefaultNamespace } tokens
    refine ⟨hpc, ?_, ?_⟩
    · rw [hpc]
      exact hp.2.trans rfl
    · rw [hpc]
      exact hp.1.trans rfl

def cfgAuth : DispatchCfg := ⟨"secret", false⟩

def svrEmpty : Server :=
  { isLoading := false, isSlave := false,
    lookup := fun _ _ => none,
    parse := fun _ _ => statusOK,
    exec := fun _ _ => (statusOK, "") }

def connAnon : Conn :=
  { ns := "", isAdmin := false, isRepl := false, closeAfterReply := false, lastCmd := "" }

theorem c1_witness :
    processCommand cfgAuth svrEmpty connAnon ["get", "foo"] =
      ⟨connAnon, [Effect.replyError "NOAUTH Authentication required."], false, false⟩ ∧
    executeCommands cfgAuth svrEmpty connAnon [["get", "foo"]] =
      ((executeCommands cfgAuth svrEmpty connAnon []).1,
        Effect.replyError "NOAUTH Authentication required." ::
          (executeCommands cfgAuth svrEmpty connAnon []).2) :=
  (c1_auth_gate cfgAuth svrEmpty connAnon ["get", "foo"] [] rfl rfl).1 ⟨by decide, by decide⟩

/-- C2: for a resolved command (the lookup succeeded and the loading gate did
not break the loop), if the declared arity `a` is positive and `|argv| ≠ a`,
or negative and `|argv| < -a`, the dispatcher replies "ERR wrong number of
arguments" and the command's `Execute` is never invoked for that argv (no
`execute` effect, `executed = false`); otherwise the arity check passes and
dispatch proceeds to the post-arity stages. -/
theorem c2_arity_check (cfg : DispatchCfg) (svr : Server) (conn : Conn)
    (tokens : List String) (cmd : CommandDesc)
    (hns : conn.ns ≠ "")
    (hlk : svr.lookup tokens.headI conn.isRepl = some cmd)
    (hload : ¬(svr.isLoading = true ∧ inCommandWhitelist cmd.name = false)) :
    (((cmd.arity > 0 ∧ (tokens.length : Int) ≠ cmd.arity) ∨
        (cmd.arity < 0 ∧ (tokens.length : Int) < -cmd.arity)) →
       processCommand cfg svr conn tokens =
         ⟨conn, [Effect.replyError "ERR wrong number of arguments"], false, false⟩) ∧
    (¬((cmd.arity > 0 ∧ (tokens.length : Int) ≠ cmd.arity) ∨
        (cmd.arity < 0 ∧ (tokens.length : Int) < -cmd.arity)) →
       processCommand cfg svr conn tokens = afterArity cfg svr conn cmd tokens) := by
  have hpc : processCommand cfg svr conn tokens = dispatchCmd cfg svr conn tokens := by
    unfold processCommand
    rw [if_neg (fun hcontra => hns hcontra.1), if_neg hns]
  constructor
  · intro har
    rw [hpc]
    unfold dispatchCmd
    simp only [hlk]
    rw [if_neg hload, if_pos har]
  · intro har
    rw [hpc]
    unfold dispatchCmd
    simp only [hlk]
    rw [if_neg hload, if_neg har]

def cmdGet : CommandDesc := ⟨"get", 2, false⟩

def svrGet : Server :=
  { isLoading := false, isSlave := false,
    lookup := fun name _ => if name = "get" then some cmdGet else none,
    parse := fun _ _ => statusOK,
    exec := fun _ _ => (statusOK, "$-1") }

def connUser : Conn :=
  { ns := "ns1", isAdmin := false, isRepl := false, closeAfterReply := false, lastCmd := "" }

theorem c2_witness :
    processCommand ⟨"", false⟩ svrGet connUser ["get", "a", "b"] =
      ⟨connUser, [Effect.replyError "ERR wrong number of arguments"], false, false⟩ ∧
    processCommand ⟨"", false⟩ svrGet connUser ["get", "a"] =
      afterArity ⟨"", false⟩ svrGet connUser cmdGet ["get", "a"] :=
  ⟨(c2_arity_check ⟨"", false⟩ svrGet connUser ["get", "a", "b"] cmdGet
      (by decide) (by decide) (by decide)).1 (by decide),
   (c2_arity_check ⟨"", false⟩ svrGet connUser ["get", "a"] cmdGet
      (by decide) (by decide) (by decide)).2 (by decide)⟩

/-! ## Storage engine wrapper (`Storage`, storage.cc)

The RocksDB engine itself is external; its statuses during a write are oracle
inputs (`WriteEnv`).  Size units follow storage.h: `KiB/MiB/GiB`. -/

def KiB : Nat := 1024
def MiB : Nat := 1024 * KiB
def GiB : Nat := 1024 * MiB

inductive RocksStatus
  | ok
  | spaceLimit
  | ioError
  | corruption
  | notFound
  deriving DecidableEq, Repr

structure StorageCfg where
  maxDbSize : Nat
  codisEnabled : Bool
  deriving DecidableEq, Repr

structure StorageState where
  reachDbSizeLimit : Bool
  deriving DecidableEq, Repr

/-- Oracle results of the external calls made inside `Storage::Write`:
`updates->Iterate(&write_batch_extractor)` and `db_->Write(options, updates)`.
(The return value of `slot_db.UpdateKeys` is discarded by the source.) -/
structure WriteEnv where
  iterateStatus : RocksStatus
  dbWriteStatus : RocksStatus
  deriving DecidableEq, Repr

/-- `Storage::Write`: fail fast with `SpaceLimit` when the size-limit flag is
set; in codis mode run the batch through the slot extractor (propagating an
`Iterate` failure); then the underlying write.  The flag itself is only read,
never written, on this path. -/
def storageWrite (cfg : StorageCfg) (st : StorageState) (env : WriteEnv) :
    RocksStatus × StorageState :=
  if st.reachDbSizeLimit = true then (RocksStatus.spaceLimit, st)
  else if cfg.codisEnabled = true ∧ env.iterateStatus ≠ RocksStatus.ok then
    (env.iterateStatus, st)
  else
    (env.dbWriteStatus, st)

/-- `Storage::CheckDBSizeLimit` (the periodic tick): recompute the flag from
`GetTotalSize()` and `max_db_size` (in GiB; 0 means unlimited), with the
source's `>=` comparison, and store it only when it changed. -/
def checkDBSizeLimit (cfg : StorageCfg) (totalSize : Nat) (st : StorageState) : StorageState :=
  let reach : Bool := if cfg.maxDbSize = 0 then false
    else decide (totalSize ≥ cfg.maxDbSize * GiB)
  if st.reachDbSizeLimit = reach then st
  else { st with reachDbSizeLimit := reach }

/-- C7 (amended): `Write(batch)` returns `SpaceLimit` exactly when the
reach-db-size-limit flag is set (given that the underlying engine statuses are
not themselves `SpaceLimit`), and never modifies the flag; the flag is
recomputed only by `CheckDBSizeLimit`, which sets it when the total on-disk
size is at least (`>=`, not strictly greater than) `max_db_size` GiB, clears
it when it is smaller, and never sets it when `max_db_size` is 0. -/
theorem c7_space_limit_gate (cfg : StorageCfg) (st : StorageState) (env : WriteEnv)
    (totalSize : Nat)
    (h1 : env.iterateStatus ≠ RocksStatus.spaceLimit)
    (h2 : env.dbWriteStatus ≠ RocksStatus.spaceLimit) :
    ((storageWrite cfg st env).1 = RocksStatus.spaceLimit ↔ st.reachDbSizeLimit = true) ∧
    (storageWrite cfg st env).2 = st ∧
    ((checkDBSizeLimit cfg totalSize st).reachDbSizeLimit = true ↔
       (cfg.maxDbSize ≠ 0 ∧ totalSize ≥ cfg.maxDbSize * GiB)) ∧
    (cfg.maxDbSize = 0 → (checkDBSizeLimit cfg totalSize st).reachDbSizeLimit = false) := by
  have hwrite : ((storageWrite cfg st env).1 = RocksStatus.spaceLimit ↔ st.reachDbSizeLimit = true) ∧
      (storageWrite cfg st env).2 = st := by
    unfold storageWrite
    by_cases hf : st.reachDbSizeLimit = true
    · rw [if_pos hf]
      exact ⟨⟨fun _ => hf, fun _ => rfl⟩, rfl⟩
    · rw [if_neg hf]
      by_cases hco : cfg.codisEnabled = true ∧ env.iterateStatus ≠ RocksStatus.ok
      · rw [if_pos hco]
        exact ⟨⟨fun hc => absurd hc h1, fun hc => absurd hc hf⟩, rfl⟩
      · rw [if_neg hco]
        exact ⟨⟨fun hc => absurd hc h2, fun hc => absurd hc hf⟩, rfl⟩
  have hcheck : (checkDBSizeLimit cfg totalSize st).reachDbSizeLimit =
      (if cfg.maxDbSize = 0 then false else decide (totalSize ≥ cfg.maxDbSize * GiB)) := by
    unfold checkDBSizeLimit
    by_cases he : st.reachDbSizeLimit =
        (if cfg.maxDbSize = 0 then false else decide (totalSize ≥ cfg.maxDbSize * GiB))
    · rw [if_pos he]
      exact he
    · rw [if_neg he]
  refine ⟨hwrite.1, hwrite.2, ?_, ?_⟩
  · rw [hcheck]
    by_cases hz : cfg.maxDbSize = 0
    · rw [if_pos hz]
      simp [hz]
    · rw [if_neg hz]
      simp [hz]
  · intro hz
    rw [hcheck, if_pos hz]

theorem c7_witness :
    ((storageWrite ⟨2, false⟩ ⟨true⟩ ⟨RocksStatus.ok, RocksStatus.ok⟩).1 =
        RocksStatus.spaceLimit ↔ (true : Bool) = true) ∧
    (storageWrite ⟨2, false⟩ ⟨true⟩ ⟨RocksStatus.ok, RocksStatus.ok⟩).2 = ⟨true⟩ ∧
    ((checkDBSizeLimit ⟨2, false⟩ (2 * GiB) ⟨true⟩).reachDbSizeLimit = true ↔
       ((2 : Nat) ≠ 0 ∧ 2 * GiB ≥ 2 * GiB)) ∧
    ((2 : Nat) = 0 → (checkDBSizeLimit ⟨2, false⟩ (2 * GiB) ⟨true⟩).reachDbSizeLimit = false) :=
  c7_space_limit_gate ⟨2, false⟩ ⟨true⟩ ⟨RocksStatus.ok, RocksStatus.ok⟩ (2 * GiB)
    (by decide) (by decide)

/-- C7 counterexample: the claim says the tick sets the flag when the size
"exceeds" `max_db_size` GiB; at a total size exactly equal to the limit
(`max_db_size = 1`, size = 1 GiB) the source's `>=` sets the flag although the
size does not exceed the limit. -/
theorem c7_counterexample :
    (checkDBSizeLimit ⟨1, false⟩ (1 * GiB) ⟨false⟩).reachDbSizeLimit = true ∧
    ¬(1 * GiB > 1 * GiB) := by
  refine ⟨by decide, by omega⟩

/-! ## DB shutdown and refcount protocol (`Storage::CloseDB`,
`Storage::IncrDBRefs`, `Storage::DecrDBRefs`). -/

structure DBState where
  dbClosing : Bool
  dbRefs : Nat
  handlesDestroyed : Bool
  deriving DecidableEq, Repr

/-- `Storage::IncrDBRefs`: NotOK ("db is closing") once `db_closing_` is set,
otherwise increment `db_refs_`. -/
def incrDBRefs (s : DBState) : Status × DBState :=
  if s.dbClosing = true then (⟨StatusCode.notOk, "db is closing"⟩, s)
  else (statusOK, { s with dbRefs := s.dbRefs + 1 })

/-- `Storage::DecrDBRefs`: NotOK ("db refs was zero") at zero, otherwise
decrement. -/
def decrDBRefs (s : DBState) : Status × DBState :=
  if s.dbRefs = 0 then (⟨StatusCode.notOk, "db refs was zero"⟩, s)
  else (statusOK, { s with dbRefs := s.dbRefs - 1 })

/-- Events of the shutdown protocol.  `Storage::CloseDB` is split into its two
mutex-protected phases: `closeBegin` (after `SyncWAL`, set `db_closing_`) and
`closeFinish` (the exit of the 10 ms spin-wait loop: enabled only once
`db_refs_` is observed to be zero under the mutex, then the column-family
handles are destroyed and the DB deleted). -/
inductive DBEvent
  | incr
  | decr
  | closeBegin
  | closeFinish
  deriving DecidableEq, Repr

def dbStep : DBState → DBEvent → DBState
  | s, DBEvent.incr => (incrDBRefs s).2
  | s, DBEvent.decr => (decrDBRefs s).2
  | s, DBEvent.closeBegin => { s with dbClosing := true }
  | s, DBEvent.closeFinish =>
    if s.dbClosing = true ∧ s.dbRefs = 0 then { s with handlesDestroyed := true } else s

def dbInit : DBState := ⟨false, 0, false⟩

def dbReachable (s : DBState) : Prop :=
  ∃ evs : List DBEvent, s = evs.foldl dbStep dbInit

/-- The inductive invariant of the shutdown protocol. -/
def dbInv (s : DBState) : Prop :=
  s.handlesDestroyed = true → s.dbClosing = true ∧ s.dbRefs = 0

theorem dbStep_preserves_inv (s : DBState) (e : DBEvent) (h : dbInv s) : dbInv (dbStep s e) := by
  cases e
  case incr =>
    simp only [dbStep]
    unfold incrDBRefs
    by_cases hc : s.dbClosing = true
    · rw [if_pos hc]
      exact h
    · rw [if_neg hc]
      intro hd
      exact absurd (h hd).1 hc
  case decr =>
    simp only [dbStep]
    unfold decrDBRefs
    by_cases hz : s.dbRefs = 0
    · rw [if_pos hz]
      exact h
    · rw [if_neg hz]
      intro hd
      exact absurd (h hd).2 hz
  case closeBegin =>
    simp only [dbStep]
    intro hd
    exact ⟨rfl, (h hd).2⟩
  case closeFinish =>
    simp only [dbStep]
    by_cases hc : s.dbClosing = true ∧ s.dbRefs = 0
    · rw [if_pos hc]
      intro _
      exact hc
    · rw [if_neg hc]
      exact h

theorem dbReachable_inv (s : DBState) (h : dbReachable s) : dbInv s := by
  obtain ⟨evs, rfl⟩ := h
  have hgen : ∀ (l : List DBEvent) (s0 : DBState), dbInv s0 → dbInv (l.foldl dbStep s0) := by
    intro l
    induction l with
    | nil => intro s0 h0; exact h0
    | cons e tl ih =>
      intro s0 h0
      exact ih (dbStep s0 e) (dbStep_preserves_inv s0 e h0)
  exact hgen evs dbInit (fun hd => absurd hd (by decide))

/-- C8: once `CloseDB` has set the `db_closing` flag, every `IncrDBRefs` call
fails with `NotOK` and leaves the state unchanged; and in every reachable
execution of the protocol, the column-family handles are destroyed only with
`db_closing` set and `db_refs = 0` — the spin-wait of `CloseDB` never frees
the handles while `db_refs` is non-zero. -/
theorem c8_close_refcount :
    (∀ s : DBState, s.dbClosing = true →
       (incrDBRefs s).1.code = StatusCode.notOk ∧ (incrDBRefs s).2 = s) ∧
    (∀ s : DBState, dbReachable s → s.handlesDestroyed = true →
       s.dbClosing = true ∧ s.dbRefs = 0) := by
  constructor
  · intro s hc
    unfold incrDBRefs
    rw [if_pos hc]
    exact ⟨rfl, rfl⟩
  · intro s hr hd
    exact dbReachable_inv s hr hd

theorem c8_witness :
    ((incrDBRefs ⟨true, 3, false⟩).1.code = StatusCode.notOk ∧
       (incrDBRefs ⟨true, 3, false⟩).2 = ⟨true, 3, false⟩) ∧
    (([DBEvent.incr, DBEvent.decr, DBEvent.closeBegin, DBEvent.closeFinish].foldl dbStep dbInit).dbClosing = true ∧
       ([DBEvent.incr, DBEvent.decr, DBEvent.closeBegin, DBEvent.closeFinish].foldl dbStep dbInit).dbRefs = 0) :=
  ⟨c8_close_refcount.1 ⟨true, 3, false⟩ rfl,
   c8_close_refcount.2 ([DBEvent.incr, DBEvent.decr, DBEvent.closeBegin, DBEvent.closeFinish].foldl dbStep dbInit)
     ⟨[DBEvent.incr, DBEvent.decr, DBEvent.closeBegin, DBEvent.closeFinish], rfl⟩ (by decide)⟩

/-! ## Backup purge (`Storage::PurgeOldBackups`, storage.cc) -/

/-- One entry of `rocksdb::BackupInfo` as used by the purge logic; the list
returned by `GetBackupInfo` is ordered oldest first. -/
structure BackupInfo where
  backupId : Nat
  timestamp : Int
  size : Nat
  numberFiles : Nat
  deriving DecidableEq, Repr

/-- `Storage::PurgeOldBackups(num_backups_to_keep, backup_max_keep_hours)`:

  * count-based phase: when more than `num_backups_to_keep` backups exist,
    `backup_->PurgeOldBackups(num_backups_to_keep)` keeps only the most
    recent `num_backups_to_keep` (the engine call is external; "delete all
    but the most recent k" per the spec);
  * age-based phase: skipped entirely when `backup_max_keep_hours == 0`;
    otherwise the source loop deletes leading entries while
    `timestamp + backup_max_keep_hours*3600 < now` and `break`s at the first
    non-expired entry (`dropWhile`).  `backup_max_keep_hours*3600` is
    computed in `uint32_t` arithmetic, hence the `% 2^32`. -/
def purgeOldBackups (backupInfos : List BackupInfo) (numBackupsToKeep : Nat)
    (backupMaxKeepHours : Nat) (now : Int) : List BackupInfo :=
  let infos1 := if backupInfos.length > numBackupsToKeep then
      backupInfos.drop (backupInfos.length - numBackupsToKeep)
    else backupInfos
  if backupMaxKeepHours = 0 then infos1
  else
    infos1.dropWhile (fun b =>
      decide (b.timestamp + (((backupMaxKeepHours * 3600) % 2 ^ 32 : Nat) : Int) < now))

/-- The claim's reading of the purge (stated from the spec's words, for
comparison): delete all but the most recent `k`, then additionally delete
every remaining backup whose timestamp is older than `now - h` hours — with
no special case for `h = 0` and no early loop exit. -/
def purgeOldBackupsSpec (backupInfos : List BackupInfo) (k h : Nat) (now : Int) :
    List BackupInfo :=
  let kept := if backupInfos.length > k then backupInfos.drop (backupInfos.length - k)
    else backupInfos
  kept.filter (fun b => !(decide (b.timestamp < now - (h : Int) * 3600)))

theorem dropWhile_eq_filter_of_mono (p : BackupInfo → Bool) :
    ∀ l : List BackupInfo,
      l.Pairwise (fun a b => a.timestamp ≤ b.timestamp) →
      (∀ a b : BackupInfo, a.timestamp ≤ b.timestamp → p b = true → p a = true) →
      l.dropWhile p = l.filter (fun b => !(p b)) := by
  intro l
  induction l with
  | nil => intro _ _; rfl
  | cons x xs ih =>
    intro hs hmono
    rw [List.pairwise_cons] at hs
    rw [List.dropWhile_cons, List.filter_cons]
    cases hp : p x with
    | true =>
      rw [if_pos rfl, if_neg (by simp)]
      exact ih hs.2 hmono
    | false =>
      rw [if_neg (by simp), if_pos (by simp)]
      have hall : ∀ a ∈ xs, (!(p a)) = true := by
        intro a ha
        cases hpa : p a with
        | false => rfl
        | true => exact absurd (hmono x a (hs.1 a ha) hpa) (by simp [hp])
      rw [List.filter_eq_self.mpr hall]

/-- C9 (amended): with the backups ordered oldest first, `h > 0` (when
`h = 0` the age-based purge is skipped entirely) and `h*3600` within
`uint32_t` range, `PurgeOldBackups` keeps the most recent `k` backups and then
deletes exactly the remaining ones whose timestamp is older than
`now - h` hours. -/
theorem c9_purge_old_backups (backupInfos : List BackupInfo) (k h : Nat) (now : Int)
    (hsorted : backupInfos.Pairwise (fun a b => a.timestamp ≤ b.timestamp))
    (hpos : 0 < h) (hnoof : h * 3600 < 2 ^ 32) :
    purgeOldBackups backupInfos k h now = purgeOldBackupsSpec backupInfos k h now := by
  unfold purgeOldBackups purgeOldBackupsSpec
  rw [if_neg (by omega : ¬h = 0)]
  have hs1 : (if backupInfos.length > k then backupInfos.drop (backupInfos.length - k)
      else backupInfos).Pairwise (fun a b => a.timestamp ≤ b.timestamp) := by
    by_cases hlen : backupInfos.length > k
    · rw [if_pos hlen]
      exact List.Pairwise.sublist (List.drop_sublist _ _) hsorted
    · rw [if_neg hlen]
      exact hsorted
  rw [Nat.mod_eq_of_lt hnoof]
  rw [dropWhile_eq_filter_of_mono _ _ hs1 ?_]
  · refine List.filter_congr ?_
    intro b _
    have hiff : (b.timestamp + ((h * 3600 : Nat) : Int) < now) ↔
        (b.timestamp < now - (h : Int) * 3600) := by
      push_cast
      omega
    rw [decide_eq_decide.mpr hiff]
  · intro a b hab hpb
    simp only [decide_eq_true_eq] at hpb ⊢
    omega

theorem c9_witness :
    purgeOldBackups [⟨1, 0, 0, 0⟩, ⟨2, 1000, 0, 0⟩] 1 1 5000 =
      purgeOldBackupsSpec [⟨1, 0, 0, 0⟩, ⟨2, 1000, 0, 0⟩] 1 1 5000 ∧
    purgeOldBackups [⟨1, 0, 0, 0⟩, ⟨2, 1000, 0, 0⟩] 1 1 5000 = [] :=
  ⟨c9_purge_old_backups [⟨1, 0, 0, 0⟩, ⟨2, 1000, 0, 0⟩] 1 1 5000
      (by decide) (by decide) (by decide),
   by decide⟩

/-- C9 counterexample: with `backup_max_keep_hours = 0` the source skips the
age-based purge entirely, while the claim, read literally, deletes every
remaining backup older than `now - 0` hours: on a single backup of timestamp
0 at `now = 100` with `k = 5`, the source keeps it and the claim deletes it. -/
theorem c9_counterexample :
    purgeOldBackups [⟨1, 0, 0, 0⟩] 5 0 100 ≠ purgeOldBackupsSpec [⟨1, 0, 0, 0⟩] 5 0 100 ∧
    purgeOldBackups [⟨1, 0, 0, 0⟩] 5 0 100 = [⟨1, 0, 0, 0⟩] ∧
    purgeOldBackupsSpec [⟨1, 0, 0, 0⟩] 5 0 100 = [] := by
  refine ⟨by decide, by decide, by decide⟩

/-! ## Column family handles (`Storage::GetCFHandle` and the registration
order of `Storage::Open`). -/

def kPubSubColumnFamilyName : String := "pubsub"
def kZSetScoreColumnFamilyName : String := "zset_score"
def kMetadataColumnFamilyName : String := "metadata"
def kSlotMetadataColumnFamilyName : String := "slot_metadata"
def kSlotColumnFamilyName : String := "slot"

/-- The order in which `Storage::Open` registers the column families (index 0
is rocksdb's default column family, named "default"); the source warns that
this order must not change or the handles will be mismatched. -/
def columnFamilyRegistrationOrder : List String :=
  ["default", kMetadataColumnFamilyName, kZSetScoreColumnFamilyName,
   kPubSubColumnFamilyName, kSlotMetadataColumnFamilyName, kSlotColumnFamilyName]

/-- `Storage::GetCFHandle`: the index into `cf_handles_` returned for a
column-family name; every unknown name falls through to index 0. -/
def getCFHandleIndex (name : String) : Nat :=
  if name = kMetadataColumnFamilyName then 1
  else if name = kZSetScoreColumnFamilyName then 2
  else if name = kPubSubColumnFamilyName then 3
  else if name = kSlotMetadataColumnFamilyName then 4
  else if name = kSlotColumnFamilyName then 5
  else 0

/-- C10: `GetCFHandle` maps the five named column families to the fixed
indices 1..5 matching the registration order of `Open` (metadata → 1,
zset_score → 2, pubsub → 3, slot_metadata → 4, slot → 5), and every other
string — including "" and "default" — yields the default column family at
index 0 rather than failing. -/
theorem c10_cf_handles :
    (∀ name ∈ [kMetadataColumnFamilyName, kZSetScoreColumnFamilyName, kPubSubColumnFamilyName,
        kSlotMetadataColumnFamilyName, kSlotColumnFamilyName],
       columnFamilyRegistrationOrder.get? (getCFHandleIndex name) = some name) ∧
    getCFHandleIndex kMetadataColumnFamilyName = 1 ∧
    getCFHandleIndex kZSetScoreColumnFamilyName = 2 ∧
    getCFHandleIndex kPubSubColumnFamilyName = 3 ∧
    getCFHandleIndex kSlotMetadataColumnFamilyName = 4 ∧
    getCFHandleIndex kSlotColumnFamilyName = 5 ∧
    (∀ s : String, s ∉ [kMetadataColumnFamilyName, kZSetScoreColumnFamilyName, kPubSubColumnFamilyName,
        kSlotMetadataColumnFamilyName, kSlotColumnFamilyName] →
       getCFHandleIndex s = 0) ∧
    getCFHandleIndex "" = 0 ∧ getCFHandleIndex "default" = 0 := by
  refine ⟨?_, by decide, by decide, by decide, by decide, by decide, ?_, by decide, by decide⟩
  · intro name hmem
    fin_cases hmem <;> decide
  · intro s hs
    simp only [List.mem_cons, List.not_mem_nil, or_false] at hs
    push_neg at hs
    obtain ⟨h1, h2, h3, h4, h5⟩ := hs
    unfold getCFHandleIndex
    rw [if_neg h1, if_neg h2, if_neg h3, if_neg h4, if_neg h5]

theorem c10_witness :
    columnFamilyRegistrationOrder.get? (getCFHandleIndex kMetadataColumnFamilyName) =
      some kMetadataColumnFamilyName ∧
    getCFHandleIndex "bogus" = 0 ∧
    getCFHandleIndex "" = 0 :=
  ⟨c10_cf_handles.1 kMetadataColumnFamilyName (by decide),
   c10_cf_handles.2.2.2.2.2.2.1 "bogus" (by decide),
   c10_cf_handles.2.2.2.2.2.2.2.1⟩
